import Mathlib

/-!
# NovaFlow Ops — verification of the spec against the code

Shallow embedding of the NovaFlow Ops repository (frontend in
`apps/web/src/app/page.tsx`, API contracts from the README and spec).
JavaScript runtime values delivered by `fetch`/`JSON.parse` are embedded as
the inductive `JsValue`; the frontend's response validators, log rendering
and screenshot surfacing are translated function by function.  The backend
components that are not part of the repository snapshot (SSRF guard, plan
validator, run state machine) are modelled from the spec, each marked so in
its doc comment.
-/

namespace NovaFlow

/-- A JavaScript value as produced by `JSON.parse` plus `null`: the values the
frontend's `unknown`-typed validators inspect. -/
inductive JsValue where
  | null
  | bool (b : Bool)
  | num (n : Int)
  | str (s : String)
  | arr (items : List JsValue)
  | obj (fields : List (String × JsValue))

/-- Association-list field lookup used to embed JavaScript property access
`v.k` on parsed JSON objects (first binding wins; `JSON.parse` never yields
duplicate keys). -/
def lookupField : List (String × JsValue) → String → Option JsValue
  | [], _ => none
  | (k', x) :: rest, k => if k' = k then some x else lookupField rest k

/-- JavaScript property access `v.k`: `none` models `undefined`. -/
def JsValue.lookup : JsValue → String → Option JsValue
  | .obj fields, k => lookupField fields k
  | _, _ => none

/-- Key-presence test on an association list. -/
def hasKeyField : List (String × JsValue) → String → Bool
  | [], _ => false
  | (k', _) :: rest, k => if k' = k then true else hasKeyField rest k

/-- The JavaScript `"k" in v` operator on parsed JSON objects. -/
def JsValue.hasKey : JsValue → String → Bool
  | .obj fields, k => hasKeyField fields k
  | _, _ => false

/-- `isRecord` from `page.tsx`: `typeof v === "object" && v !== null`.  In
JavaScript this is also true of arrays. -/
def isRecord : JsValue → Bool
  | .obj _ => true
  | .arr _ => true
  | _ => false

/-- `isRecord` applied to a possibly-`undefined` value (`Option` models the
`undefined` a missing property yields). -/
def isRecordOpt : Option JsValue → Bool
  | some v => isRecord v
  | none => false

/-- `typeof x === "number"` on a possibly-`undefined` value. -/
def jsTypeofIsNumber : Option JsValue → Bool
  | some (.num _) => true
  | _ => false

/-- `typeof x === "string"` on a possibly-`undefined` value. -/
def jsTypeofIsString : Option JsValue → Bool
  | some (.str _) => true
  | _ => false

/-- Property access chained after a possibly-`undefined` value. -/
def jsGet (o : Option JsValue) (k : String) : Option JsValue :=
  o.bind (fun v => v.lookup k)

/-- `"k" in v` after a possibly-`undefined` value. -/
def jsHasKeyOpt (o : Option JsValue) (k : String) : Bool :=
  match o with
  | some v => v.hasKey k
  | none => false

/-- `isExecuteStepOkResponse` from `page.tsx`: accepts `v` when it is a
record, `v.run_id` is a number, `v.status` is a string and the key
`executed_step_id` is present (the value's type is not inspected). -/
def isExecuteStepOkResponse (v : JsValue) : Bool :=
  isRecord v &&
  jsTypeofIsNumber (v.lookup "run_id") &&
  jsTypeofIsString (v.lookup "status") &&
  v.hasKey "executed_step_id"

/-- `isRunLogItem` from `page.tsx`. -/
def isRunLogItem (l : JsValue) : Bool :=
  isRecord l &&
  jsTypeofIsString (l.lookup "ts") &&
  jsTypeofIsString (l.lookup "level") &&
  jsTypeofIsString (l.lookup "message") &&
  l.hasKey "data"

/-- The `Array.isArray(logs) && logs.every(isRunLogItem)` tail of
`isRunDetailsOkResponse`. -/
def logsArrayOk : Option JsValue → Bool
  | some (.arr items) => items.all isRunLogItem
  | _ => false

/-- `isRunDetailsOkResponse` from `page.tsx`, its early returns written as a
conjunction. -/
def isRunDetailsOkResponse (v : JsValue) : Bool :=
  isRecord v &&
  isRecordOpt (v.lookup "run") &&
  jsTypeofIsNumber (jsGet (v.lookup "run") "id") &&
  jsTypeofIsString (jsGet (v.lookup "run") "task") &&
  jsTypeofIsString (jsGet (v.lookup "run") "status") &&
  jsHasKeyOpt (v.lookup "run") "plan" &&
  logsArrayOk (v.lookup "logs")

/-- The shape the spec promises for one retrieved log entry: string `ts`,
string `level`, string `message` and a `data` field. -/
def LogItemShape (l : JsValue) : Prop :=
  (∃ s, l.lookup "ts" = some (JsValue.str s)) ∧
  (∃ s, l.lookup "level" = some (JsValue.str s)) ∧
  (∃ s, l.lookup "message" = some (JsValue.str s)) ∧
  l.hasKey "data" = true

/-- The `get-run` response shape the spec promises, written from the spec's
words: a `run` object with numeric `id`, string `task`, string `status` and a
`plan` field, and a `logs` array of well-shaped entries. -/
def RunDetailsShape (v : JsValue) : Prop :=
  ∃ run items,
    v.lookup "run" = some run ∧
    (∃ n, run.lookup "id" = some (JsValue.num n)) ∧
    (∃ s, run.lookup "task" = some (JsValue.str s)) ∧
    (∃ s, run.lookup "status" = some (JsValue.str s)) ∧
    run.hasKey "plan" = true ∧
    v.lookup "logs" = some (JsValue.arr items) ∧
    ∀ l ∈ items, LogItemShape l

/-- The TypeScript type `RunLogItem`: the typed view the frontend works with
once `isRunLogItem` has accepted the raw value. -/
structure RunLogItem where
  ts : String
  level : String
  message : String
  data : JsValue

/-- The cast performed by the `isRunLogItem` type guard, made explicit. -/
def decodeRunLogItem (l : JsValue) : Option RunLogItem :=
  match l.lookup "ts", l.lookup "level", l.lookup "message", l.lookup "data" with
  | some (.str ts), some (.str level), some (.str message), some data =>
    some ⟨ts, level, message, data⟩
  | _, _, _, _ => none

/-- `safeReadJson` from `page.tsx`.  `JSON.parse` is a JavaScript builtin and
is passed in as the function `parse` (`none` models a parse exception); the
`try`/`catch` becomes the `match`. -/
def safeReadJson (parse : String → Option JsValue) (text : String) : JsValue :=
  if text = "" then JsValue.null
  else
    match parse text with
    | some v => v
    | none => JsValue.obj [("error", JsValue.str text)]

/-- `getApiBase` from `page.tsx`: the `NEXT_PUBLIC_API_URL` environment
variable (`none` when unset) with the default, and `replace(/\x5c\x2f$/, "")`
stripping one trailing slash. -/
def getApiBase (envUrl : Option String) : String :=
  let raw := envUrl.getD "http://localhost:8000"
  if raw.endsWith "/" then raw.dropRight 1 else raw

/-- `getScreenshotUrlFromLogData` from `page.tsx`: the string at
`data.result.screenshot_url`, else `null`. -/
def getScreenshotUrlFromLogData (data : JsValue) : Option String :=
  if !(isRecord data) then none
  else
    let result := data.lookup "result"
    if !(isRecordOpt result) then none
    else
      match jsGet result "screenshot_url" with
      | some (.str url) => some url
      | _ => none

/-- The `screenshotLinks` memo from `page.tsx`: walk the retrieved logs, keep
entries whose `message` is `"UI step executed"`, push the screenshot URL when
`if (url)` holds — JavaScript truthiness, so the empty string is dropped. -/
def screenshotLinks : List RunLogItem → List String
  | [] => []
  | l :: rest =>
    if l.message = "UI step executed" then
      match getScreenshotUrlFromLogData l.data with
      | some url => if url = "" then screenshotLinks rest else url :: screenshotLinks rest
      | none => screenshotLinks rest
    else screenshotLinks rest

/-- The string value at `data.result.screenshot_url`, written from the spec's
words alone (the claim's "string values found at result.screenshot_url"). -/
def screenshotStringAt (data : JsValue) : Option String :=
  match data.lookup "result" with
  | some r =>
    match r.lookup "screenshot_url" with
    | some (.str s) => some s
    | _ => none
  | none => none

/-- The claim's reading of the surfaced evidence: every string value at
`result.screenshot_url` of a `"UI step executed"` entry, in log order. -/
def specScreenshotStrings : List RunLogItem → List String
  | [] => []
  | l :: rest =>
    if l.message = "UI step executed" then
      match screenshotStringAt l.data with
      | some url => url :: specScreenshotStrings rest
      | none => specScreenshotStrings rest
    else specScreenshotStrings rest

/-- `latestScreenshotPath` from `page.tsx`: the last surfaced link, if any. -/
def latestScreenshotPath (links : List String) : Option String :=
  if links.length > 0 then links.getLast? else none

/-- `latestScreenshotUrl` from `page.tsx`: the API base concatenated with the
latest path; the conditional is JavaScript truthiness on the path string. -/
def latestScreenshotUrl (apiBase : String) (links : List String) : Option String :=
  match latestScreenshotPath links with
  | some p => if p = "" then none else some (apiBase ++ p)
  | none => none

/-- The `humanLogs` memo from `page.tsx`: `[...runDetails.logs].reverse()`,
newest first. -/
def humanLogs (logs : List RunLogItem) : List RunLogItem :=
  logs.reverse

/-- `canCreate` from `page.tsx`: `task.trim().length > 0 && !loading`. -/
def canCreate (task : String) (loading : Bool) : Bool :=
  decide (task.trim.length > 0) && !loading

/-- Case-insensitive character comparison, for the `i` flag of the URL
regex. -/
def ciEq (a b : Char) : Bool := a.toLower == b.toLower

/-- Case-insensitively strip a pattern from the front of the input, returning
the rest. -/
def dropPatCI : List Char → List Char → Option (List Char)
  | [], s => some s
  | _ :: _, [] => none
  | p :: ps, c :: cs => if ciEq p c then dropPatCI ps cs else none

/-- The whitespace class of the regex `[^\x5cs]+` (ASCII part). -/
def isJsSpace (c : Char) : Bool :=
  c == ' ' || c == '\t' || c == '\n' || c == '\r' || c == '\x0b' || c == '\x0c'

/-- One attempt of a scheme pattern at the current position: the pattern
case-insensitively, then at least one non-space character; the match keeps
the original characters. -/
def tryUrlPat (pat s : List Char) : Option (List Char) :=
  match dropPatCI pat s with
  | some rest =>
    if (rest.takeWhile (fun c => !(isJsSpace c))).isEmpty then none
    else some (s.take pat.length ++ rest.takeWhile (fun c => !(isJsSpace c)))
  | none => none

/-- One attempt of the regex `https?:\x2f\x2f[^\x5cs]+` at the current
position: greedy `s?` first. -/
def matchUrlAt (s : List Char) : Option (List Char) :=
  match tryUrlPat "https://".toList s with
  | some m => some m
  | none => tryUrlPat "http://".toList s

/-- Leftmost-match scan of the regex over the text. -/
def firstHttpUrlAux : List Char → Option (List Char)
  | [] => none
  | c :: cs =>
    match matchUrlAt (c :: cs) with
    | some m => some m
    | none => firstHttpUrlAux cs

/-- `extractFirstHttpUrl` from `page.tsx`: the first match of
`https?:\x2f\x2f[^\x5cs]+` (case-insensitive) in the task text. -/
def extractFirstHttpUrl (text : String) : Option String :=
  (firstHttpUrlAux text.toList).map (fun cs => String.mk cs)

/-- `safeHost` from `page.tsx`: `new URL(urlStr).host.toLowerCase()`, with the
WHATWG `URL` parser a JavaScript builtin passed in as `hostFn` (`none` models
the constructor throwing, caught to `null`). -/
def safeHost (hostFn : String → Option String) (urlStr : String) : Option String :=
  (hostFn urlStr).map (fun h => h.toLower)

/-- The `typedHost` memo from `page.tsx`: `typedUrl ? safeHost(typedUrl) :
null` (truthiness on the extracted URL string). -/
def typedHostOf (hostFn : String → Option String) (task : String) : Option String :=
  match extractFirstHttpUrl task with
  | some u => if u = "" then none else safeHost hostFn u
  | none => none

/-- JavaScript truthiness of a `string | null` value. -/
def jsStrOptTruthy : Option String → Bool
  | some s => s != ""
  | none => false

/-- The `showUrlWarning` memo from `page.tsx`:
`if (!typedHost || !demoHost) return false; return typedHost !== demoHost`. -/
def showUrlWarning (typedHost demoHost : Option String) : Bool :=
  if !(jsStrOptTruthy typedHost) || !(jsStrOptTruthy demoHost) then false
  else decide (typedHost ≠ demoHost)

/-- An IPv4 address by its four octets. -/
structure Ipv4 where
  o1 : Nat
  o2 : Nat
  o3 : Nat
  o4 : Nat
deriving DecidableEq

/-- Loopback range 127.0.0.0/8. -/
def isLoopback (ip : Ipv4) : Bool := ip.o1 == 127

/-- Link-local range 169.254.0.0/16. -/
def isLinkLocal (ip : Ipv4) : Bool := ip.o1 == 169 && ip.o2 == 254

/-- Private ranges 10/8, 172.16/12, 192.168/16. -/
def isPrivate (ip : Ipv4) : Bool :=
  ip.o1 == 10 ||
  (ip.o1 == 172 && decide (16 ≤ ip.o2) && decide (ip.o2 ≤ 31)) ||
  (ip.o1 == 192 && ip.o2 == 168)

/-- An address the SSRF guard must reject (spec 4.2: loopback, link-local or
private). -/
def isBlockedIp (ip : Ipv4) : Bool :=
  isLoopback ip || isLinkLocal ip || isPrivate ip

/-- Outcome of a bounded-timeout DNS resolution (spec 4.2). -/
inductive DnsOutcome where
  | resolved (ips : List Ipv4)
  | failed
  | timedOut

/-- Strip an exact pattern from the front of the input, returning the
rest. -/
def dropPat : List Char → List Char → Option (List Char)
  | [], s => some s
  | _ :: _, [] => none
  | p :: ps, c :: cs => if p = c then dropPat ps cs else none

/-- Split on the dots of a dotted-quad literal (`acc` holds the current
component reversed). -/
def splitOnDotAux : List Char → List Char → List (List Char)
  | [], acc => [acc.reverse]
  | c :: cs, acc =>
    if c = '.' then acc.reverse :: splitOnDotAux cs [] else splitOnDotAux cs (c :: acc)

/-- The value of a non-empty all-digit component. -/
def digitsToNat (ds : List Char) : Option Nat :=
  if ds.isEmpty then none
  else if ds.all Char.isDigit then
    some (ds.foldl (fun n c => 10 * n + (c.toNat - '0'.toNat)) 0)
  else none

/-- One decimal octet, 0–255. -/
def parseOctet (ds : List Char) : Option Nat :=
  match digitsToNat ds with
  | some n => if n ≤ 255 then some n else none
  | none => none

/-- Parse a dotted-quad IPv4 literal. -/
def parseIpv4 (host : String) : Option Ipv4 :=
  match splitOnDotAux host.toList [] with
  | [a, b, c, d] =>
    match parseOctet a, parseOctet b, parseOctet c, parseOctet d with
    | some x, some y, some z, some w => some ⟨x, y, z, w⟩
    | _, _, _, _ => none
  | _ => none

/-- A character ending the host part of a URL. -/
def hostDelim (c : Char) : Bool := c == '/' || c == ':' || c == '?' || c == '#'

/-- Modelled from the spec: the hostname of an http(s) URL, for the SSRF
guard of section 4.2 — the backend `services/api` code is not in the
repository snapshot.  `none` when the scheme is not http or https. -/
def urlHostname (url : String) : Option String :=
  match dropPat "http://".toList url.toList with
  | some rest => some (String.mk (rest.takeWhile (fun c => !(hostDelim c))))
  | none =>
    match dropPat "https://".toList url.toList with
    | some rest => some (String.mk (rest.takeWhile (fun c => !(hostDelim c))))
    | none => none

/-- Modelled from the spec: hostname resolution for the SSRF guard.  An IPv4
literal resolves to itself; otherwise the ambient DNS resolver `dns`
answers. -/
def resolveHost (dns : String → DnsOutcome) (host : String) : DnsOutcome :=
  match parseIpv4 host with
  | some ip => .resolved [ip]
  | none => dns host

/-- Modelled from the spec (section 4.2, backend not in the snapshot): the
SSRF guard allows a URL only when its scheme is http or https, DNS resolution
neither fails nor times out, and every resolved address is outside the
loopback, link-local and private ranges. -/
def ssrfGuardAllows (dns : String → DnsOutcome) (url : String) : Bool :=
  match urlHostname url with
  | none => false
  | some host =>
    match resolveHost dns host with
    | .resolved ips => !ips.isEmpty && ips.all (fun ip => !(isBlockedIp ip))
    | .failed => false
    | .timedOut => false

/-- Step status of the data model (spec section 3). -/
inductive StepStatus where
  | PENDING
  | EXECUTED
  | FAILED
  | SKIPPED
deriving DecidableEq

/-- Modelled from the spec (section 4.2): a navigation-causing step runs the
SSRF guard first; on rejection the step is marked FAILED and no navigation
target is produced — never a fallback URL. -/
def navigateStep (dns : String → DnsOutcome) (url : String) : StepStatus × Option String :=
  if ssrfGuardAllows dns url then (StepStatus.EXECUTED, some url) else (StepStatus.FAILED, none)

/-- The nine DSL verbs of the runner grammar (spec section 6, README). -/
inductive DslVerb where
  | CLICK_TEXT
  | CLICK_ID
  | CLICK_CSS
  | TYPE_ID
  | WAIT_TEXT
  | ASSERT_TEXT
  | WAIT_URL_CONTAINS
  | WAIT_MS
  | SCREENSHOT
deriving DecidableEq

/-- Split `VERB: <arg>` at the verb's colon and trim the argument (spec 4.1
returns the verb and argument "already split and trimmed"). -/
def verbArg (verb : String) (instr : String) : Option String :=
  let pre := verb ++ ":"
  if instr.startsWith pre then some ((instr.drop pre.length).trim) else none

/-- A parsed step when the trimmed argument is non-empty. -/
def mkStep (v : DslVerb) (a : String) : Option (DslVerb × String) :=
  if a = "" then none else some (v, a)

/-- Modelled from the spec (sections 4.1 and 6, backend not in the snapshot):
parse one instruction as one of the nine DSL verbs.  `WAIT_MS` requires an
integer argument and `TYPE_ID` a `field=value` argument; anything else is
rejected. -/
def parseInstruction (instr : String) : Option (DslVerb × String) :=
  match verbArg "CLICK_TEXT" instr with
  | some a => mkStep .CLICK_TEXT a
  | none =>
  match verbArg "CLICK_ID" instr with
  | some a => mkStep .CLICK_ID a
  | none =>
  match verbArg "CLICK_CSS" instr with
  | some a => mkStep .CLICK_CSS a
  | none =>
  match verbArg "TYPE_ID" instr with
  | some a => if a.contains '=' then some (.TYPE_ID, a) else none
  | none =>
  match verbArg "WAIT_TEXT" instr with
  | some a => mkStep .WAIT_TEXT a
  | none =>
  match verbArg "ASSERT_TEXT" instr with
  | some a => mkStep .ASSERT_TEXT a
  | none =>
  match verbArg "WAIT_URL_CONTAINS" instr with
  | some a => mkStep .WAIT_URL_CONTAINS a
  | none =>
  match verbArg "WAIT_MS" instr with
  | some a => match a.toNat? with
    | some _ => some (.WAIT_MS, a)
    | none => none
  | none =>
  match verbArg "SCREENSHOT" instr with
  | some a => mkStep .SCREENSHOT a
  | none => none

/-- `PlanValidationError` (spec 4.1): the plan is empty, too long, or its
first offending step index and instruction. -/
inductive PlanError where
  | emptyPlan
  | tooLong (got maxLen : Nat)
  | badStep (idx : Nat) (instr : String)

/-- Parse each instruction in order with the instruction parser `parse`,
reporting the first offending index. -/
def parsePlanSteps (parse : String → Option (DslVerb × String)) :
    Nat → List String → Except PlanError (List (DslVerb × String))
  | _, [] => .ok []
  | i, s :: rest =>
    match parse s with
    | none => .error (.badStep i s)
    | some p =>
      match parsePlanSteps parse (i + 1) rest with
      | .ok ps => .ok (p :: ps)
      | .error e => .error e

/-- Modelled from the spec (section 4.1, backend not in the snapshot): the
Plan Validator rejects an empty plan, a plan longer than the configured
maximum, and any instruction that does not parse; on success it returns the
normalized plan. -/
def validatePlan (maxLen : Nat) (instrs : List String) : Except PlanError (List (DslVerb × String)) :=
  if instrs.isEmpty then .error .emptyPlan
  else if instrs.length > maxLen then .error (.tooLong instrs.length maxLen)
  else parsePlanSteps parseInstruction 0 instrs

/-- Whether the validator accepted the plan. -/
def isPlanAccepted {e a : Type} : Except e a → Bool
  | .ok _ => true
  | .error _ => false

/-- Run status of the data model (spec section 3). -/
inductive RunStatus where
  | CREATED
  | RUNNING
  | AWAITING_APPROVAL
  | DONE
  | ERROR
deriving DecidableEq

/-- One stored step of a run: its approval flag, whether approval has been
granted, and its mutable status. -/
structure StepRec where
  requiresApproval : Bool
  approved : Bool
  status : StepStatus
deriving DecidableEq

/-- The run record the state machine of spec section 4.5 acts on. -/
structure RunState where
  status : RunStatus
  steps : List StepRec
  hasSession : Bool
deriving DecidableEq

/-- Index of the next PENDING step, if any. -/
def firstPendingIdx (steps : List StepRec) : Option Nat :=
  steps.findIdx? (fun s => s.status == StepStatus.PENDING)

/-- Set the status of the step at index `i`. -/
def setStepStatus (steps : List StepRec) (i : Nat) (st : StepStatus) : List StepRec :=
  steps.mapIdx (fun j s => if j = i then { s with status := st } else s)

/-- Outcome of dispatching one step to the Step Interpreter. -/
inductive StepOutcome where
  | success
  | failure

/-- Modelled from the spec (sections 4.5 and 8, backend not in the
snapshot): `execute-next-step`.  On a DONE or ERROR run it is a no-op and
dispatches nothing; an unapproved gated step pauses the run; otherwise the
next pending step runs via `exec` and the run advances to DONE, RUNNING or
ERROR. -/
def executeNextStep (exec : Nat → StepOutcome) (r : RunState) : RunState × Option Nat :=
  match r.status with
  | .DONE => (r, none)
  | .ERROR => (r, none)
  | _ =>
    match firstPendingIdx r.steps with
    | none => (r, none)
    | some i =>
      match r.steps.get? i with
      | none => (r, none)
      | some s =>
        if s.requiresApproval && !s.approved then
          ({ r with status := .AWAITING_APPROVAL }, none)
        else
          match exec i with
          | .success =>
            let steps := setStepStatus r.steps i .EXECUTED
            let st := if firstPendingIdx steps = none then RunStatus.DONE else RunStatus.RUNNING
            ({ r with steps := steps, status := st }, some i)
          | .failure =>
            ({ r with steps := setStepStatus r.steps i .FAILED, status := .ERROR }, some i)

/-- Modelled from the spec (section 4.5): `approve` unblocks an
AWAITING_APPROVAL run by approving the gated pending step; on any other
status it changes nothing. -/
def approveRun (r : RunState) : RunState :=
  if r.status = RunStatus.AWAITING_APPROVAL then
    match firstPendingIdx r.steps with
    | some i =>
      { r with
        status := .RUNNING,
        steps := r.steps.mapIdx (fun j s => if j = i then { s with approved := true } else s) }
    | none => { r with status := .RUNNING }
  else r

/-- Modelled from the spec (sections 4.3 and 4.5): `close-session` tears the
session down; it is valid from any state and does not touch the run
status. -/
def closeSession (r : RunState) : RunState :=
  { r with hasSession := false }

/-- A concrete accepted execute-next-step response used as witness input. -/
def c1Good : JsValue :=
  JsValue.obj
    [("run_id", JsValue.num 7), ("status", JsValue.str "RUNNING"),
     ("executed_step_id", JsValue.null)]

/-- A response whose `executed_step_id` is a number: accepted by the
validator, yet neither a string nor `null`. -/
def c1Bad : JsValue :=
  JsValue.obj
    [("run_id", JsValue.num 1), ("status", JsValue.str "RUNNING"),
     ("executed_step_id", JsValue.num 42)]

/-- Whether a possibly-`undefined` value is a string or JavaScript `null`:
the type the spec promises for `executed_step_id`. -/
def isStrOrNull : Option JsValue → Bool
  | some (.str _) => true
  | some .null => true
  | _ => false

theorem lookup_isRecord {v : JsValue} {k : String} {x : JsValue}
    (h : v.lookup k = some x) : isRecord v = true := by
  cases v <;> simp_all [JsValue.lookup, isRecord]

theorem jsTypeofIsNumber_iff (o : Option JsValue) :
    jsTypeofIsNumber o = true ↔ ∃ n, o = some (JsValue.num n) := by
  cases o with
  | none => simp [jsTypeofIsNumber]
  | some v => cases v <;> simp [jsTypeofIsNumber]

theorem jsTypeofIsString_iff (o : Option JsValue) :
    jsTypeofIsString o = true ↔ ∃ s, o = some (JsValue.str s) := by
  cases o with
  | none => simp [jsTypeofIsString]
  | some v => cases v <;> simp [jsTypeofIsString]

theorem isRecordOpt_some {o : Option JsValue} (h : isRecordOpt o = true) :
    ∃ v, o = some v := by
  cases o with
  | none => simp [isRecordOpt] at h
  | some v => exact ⟨v, rfl⟩

theorem logsArrayOk_iff (o : Option JsValue) :
    logsArrayOk o = true ↔
      ∃ items, o = some (JsValue.arr items) ∧ ∀ l ∈ items, isRunLogItem l = true := by
  cases o with
  | none => simp [logsArrayOk]
  | some v => cases v <;> simp [logsArrayOk, List.all_eq_true]

theorem isRunLogItem_iff (l : JsValue) : isRunLogItem l = true ↔ LogItemShape l := by
  constructor
  · intro h
    unfold isRunLogItem at h
    simp only [Bool.and_eq_true] at h
    obtain ⟨⟨⟨⟨_, hts⟩, hlv⟩, hms⟩, hdata⟩ := h
    exact ⟨(jsTypeofIsString_iff _).mp hts, (jsTypeofIsString_iff _).mp hlv,
      (jsTypeofIsString_iff _).mp hms, hdata⟩
  · rintro ⟨⟨ts, hts⟩, ⟨lv, hlv⟩, ⟨ms, hms⟩, hdata⟩
    have hrec := lookup_isRecord hts
    unfold isRunLogItem
    simp [hrec, hts, hlv, hms, hdata, jsTypeofIsString]

/-- C1: the execute-next-step validator guarantees a numeric `run_id`, a
string `status` and the presence of the `executed_step_id` key — but not that
the key's value is a string or null (see the counterexample); this is the
amended claim. -/
theorem isExecuteStepOkResponse_shape (v : JsValue)
    (h : isExecuteStepOkResponse v = true) :
    (∃ n, v.lookup "run_id" = some (JsValue.num n)) ∧
    (∃ s, v.lookup "status" = some (JsValue.str s)) ∧
    v.hasKey "executed_step_id" = true := by
  unfold isExecuteStepOkResponse at h
  simp only [Bool.and_eq_true] at h
  obtain ⟨⟨⟨_, hnum⟩, hstr⟩, hkey⟩ := h
  exact ⟨(jsTypeofIsNumber_iff _).mp hnum, (jsTypeofIsString_iff _).mp hstr, hkey⟩

/-- C1 witness: the amended guarantee at a concrete accepted response. -/
theorem isExecuteStepOkResponse_shape_witness :
    isExecuteStepOkResponse c1Good = true ∧
    ((∃ n, c1Good.lookup "run_id" = some (JsValue.num n)) ∧
     (∃ s, c1Good.lookup "status" = some (JsValue.str s)) ∧
     c1Good.hasKey "executed_step_id" = true) :=
  ⟨by decide, isExecuteStepOkResponse_shape c1Good (by decide)⟩

/-- C1 counterexample: a response whose `executed_step_id` is the number 42
passes `isExecuteStepOkResponse`, refuting "a step identifier string or null
(never a value of any other type)". -/
theorem isExecuteStepOkResponse_accepts_numeric_step_id :
    isExecuteStepOkResponse c1Bad = true ∧
    c1Bad.lookup "executed_step_id" = some (JsValue.num 42) ∧
    isStrOrNull (c1Bad.lookup "executed_step_id") = false :=
  ⟨by decide, rfl, by decide⟩

/-- C2: the get-run validator accepts a value exactly when it has the
`{run: {id, task, status, plan}, logs: [...]}` shape the spec promises. -/
theorem isRunDetailsOkResponse_iff (v : JsValue) :
    isRunDetailsOkResponse v = true ↔ RunDetailsShape v := by
  constructor
  · intro h
    unfold isRunDetailsOkResponse at h
    simp only [Bool.and_eq_true] at h
    obtain ⟨⟨⟨⟨⟨⟨_, hrun⟩, hid⟩, htask⟩, hstatus⟩, hplan⟩, hlogs⟩ := h
    obtain ⟨run, hr⟩ := isRecordOpt_some hrun
    rw [hr] at hid htask hstatus hplan
    simp only [jsGet, Option.bind_some, jsHasKeyOpt] at hid htask hstatus hplan
    obtain ⟨items, hl, hall⟩ := (logsArrayOk_iff _).mp hlogs
    exact ⟨run, items, hr, (jsTypeofIsNumber_iff _).mp hid,
      (jsTypeofIsString_iff _).mp htask, (jsTypeofIsString_iff _).mp hstatus,
      hplan, hl, fun l hm => (isRunLogItem_iff l).mp (hall l hm)⟩
  · rintro ⟨run, items, hr, ⟨n, hid⟩, ⟨t, htask⟩, ⟨st, hstatus⟩, hplan, hl, hall⟩
    have hvrec := lookup_isRecord hr
    have hrunrec := lookup_isRecord hid
    unfold isRunDetailsOkResponse
    rw [hr, hl]
    simp [jsGet, jsHasKeyOpt, hvrec, hrunrec, isRecordOpt, hid, htask, hstatus,
      jsTypeofIsNumber, jsTypeofIsString, hplan, logsArrayOk, List.all_eq_true]
    exact fun l hm => (isRunLogItem_iff l).mpr (hall l hm)

/-- C4: the rendered timeline is the exact reversal of the retrieved logs —
reversing it again restores retrieval order, and it is a permutation of the
logs (no entry lost, duplicated or dropped). -/
theorem humanLogs_is_reversal (logs : List RunLogItem) :
    humanLogs logs = logs.reverse ∧
    (humanLogs logs).reverse = logs ∧
    (humanLogs logs).Perm logs :=
  ⟨rfl, List.reverse_reverse logs, List.reverse_perm logs⟩

/-- C9: `safeReadJson` is total (a Lean function) and returns `null` for an
empty body, the parsed value when the body parses, and `{error: body}` when
parsing throws — every caller gets a structured value. -/
theorem safeReadJson_cases (parse : String → Option JsValue) (text : String) :
    (text = "" → safeReadJson parse text = JsValue.null) ∧
    (∀ v, text ≠ "" → parse text = some v → safeReadJson parse text = v) ∧
    (text ≠ "" → parse text = none →
      safeReadJson parse text = JsValue.obj [("error", JsValue.str text)]) := by
  refine ⟨fun he => ?_, fun v hne hp => ?_, fun hne hp => ?_⟩
  · simp [safeReadJson, he]
  · simp [safeReadJson, hne, hp]
  · simp [safeReadJson, hne, hp]

theorem getScreenshotUrl_eq_specString (data : JsValue) :
    getScreenshotUrlFromLogData data = screenshotStringAt data := by
  cases data with
  | obj fields =>
    unfold getScreenshotUrlFromLogData screenshotStringAt
    simp only [isRecord, Bool.not_true, Bool.false_eq_true, if_false, JsValue.lookup]
    cases h : lookupField fields "result" with
    | none => simp [isRecordOpt, jsGet]
    | some r => cases r <;> simp [isRecordOpt, isRecord, jsGet, JsValue.lookup]
  | null => rfl
  | bool b => rfl
  | num n => rfl
  | str s => rfl
  | arr items => rfl

theorem screenshotLinks_filter_spec (logs : List RunLogItem) :
    screenshotLinks logs = (specScreenshotStrings logs).filter (fun s => s != "") := by
  induction logs with
  | nil => rfl
  | cons l rest ih =>
    unfold screenshotLinks specScreenshotStrings
    by_cases hm : l.message = "UI step executed"
    · rw [if_pos hm, if_pos hm, getScreenshotUrl_eq_specString]
      cases hs : screenshotStringAt l.data with
      | none => exact ih
      | some url =>
        by_cases hu : url = ""
        · subst hu
          simpa using ih
        · simp [List.filter_cons, hu, ih]
    · rw [if_neg hm, if_neg hm]
      exact ih

theorem screenshotLinks_mem_ne_empty (logs : List RunLogItem) :
    ∀ p ∈ screenshotLinks logs, p ≠ "" := by
  intro p hp
  rw [screenshotLinks_filter_spec] at hp
  have := List.of_mem_filter hp
  simpa using this

/-- C3 counterexample: a `"UI step executed"` entry whose
`result.screenshot_url` is the empty string carries a string value there, yet
`screenshotLinks` surfaces nothing — refuting "consists of exactly the string
values found at result.screenshot_url". -/
theorem screenshotLinks_drops_empty_string :
    screenshotLinks
      [⟨"2024-01-01T00:00:00Z", "info", "UI step executed",
        JsValue.obj [("result", JsValue.obj [("screenshot_url", JsValue.str "")])]⟩] = [] ∧
    specScreenshotStrings
      [⟨"2024-01-01T00:00:00Z", "info", "UI step executed",
        JsValue.obj [("result", JsValue.obj [("screenshot_url", JsValue.str "")])]⟩] = [""] :=
  ⟨rfl, rfl⟩

/-- C3 (amended): the surfaced links are exactly the non-empty string values
at `result.screenshot_url` of the `"UI step executed"` entries, in log order;
the JavaScript truthiness test drops an empty-string URL. -/
theorem screenshotLinks_exactly_nonempty_evidence (logs : List RunLogItem) :
    screenshotLinks logs = (specScreenshotStrings logs).filter (fun s => s != "") :=
  screenshotLinks_filter_spec logs

/-- C8: the latest-screenshot URL is the API base (from `getApiBase`)
concatenated with the last surfaced link, and it is `null` exactly when no
screenshot link has been surfaced. -/
theorem latestScreenshotUrl_resolves (env : Option String) (logs : List RunLogItem) :
    latestScreenshotUrl (getApiBase env) (screenshotLinks logs) =
      ((screenshotLinks logs).getLast?).map (fun p => getApiBase env ++ p) ∧
    (latestScreenshotUrl (getApiBase env) (screenshotLinks logs) = none ↔
      screenshotLinks logs = []) := by
  have hclean := screenshotLinks_mem_ne_empty logs
  cases hl : screenshotLinks logs with
  | nil => simp [latestScreenshotUrl, latestScreenshotPath]
  | cons a as =>
    have hne : a :: as ≠ [] := by simp
    have hlast : (a :: as).getLast? = some ((a :: as).getLast hne) :=
      List.getLast?_eq_getLast _ hne
    have hmem : (a :: as).getLast hne ∈ a :: as := List.getLast_mem hne
    have hmem' : (a :: as).getLast hne ∈ screenshotLinks logs := by rw [hl]; exact hmem
    have hpne : (a :: as).getLast hne ≠ "" := hclean _ hmem'
    simp [latestScreenshotUrl, latestScreenshotPath, hlast, hpne]

/-- A resolver on which every DNS query fails, used as witness input. -/
def dnsAllFailed : String → DnsOutcome := fun _ => DnsOutcome.failed

/-- C5 (spec-modelled): the SSRF guard rejects non-http(s) schemes, DNS
failures and timeouts, and any resolution containing a loopback, link-local
or private address — in particular the spec's two probe URLs — and a
rejected navigation step is marked FAILED with no fallback target. -/
theorem ssrfGuard_rejects (dns : String → DnsOutcome) (url : String) :
    (urlHostname url = none → ssrfGuardAllows dns url = false) ∧
    (∀ host, urlHostname url = some host → resolveHost dns host = .failed →
      ssrfGuardAllows dns url = false) ∧
    (∀ host, urlHostname url = some host → resolveHost dns host = .timedOut →
      ssrfGuardAllows dns url = false) ∧
    (∀ host ips ip, urlHostname url = some host → resolveHost dns host = .resolved ips →
      ip ∈ ips → isBlockedIp ip = true → ssrfGuardAllows dns url = false) ∧
    ssrfGuardAllows dns "http://127.0.0.1/" = false ∧
    ssrfGuardAllows dns "http://169.254.169.254/" = false ∧
    (ssrfGuardAllows dns url = false → navigateStep dns url = (StepStatus.FAILED, none)) := by
  refine ⟨fun hn => ?_, fun host hh hr => ?_, fun host hh hr => ?_,
    fun host ips ip hh hr hmem hbad => ?_, ?_, ?_, fun hg => ?_⟩
  · simp [ssrfGuardAllows, hn]
  · simp [ssrfGuardAllows, hh, hr]
  · simp [ssrfGuardAllows, hh, hr]
  · have hall : ips.all (fun q => !(isBlockedIp q)) = false := by
      rw [List.all_eq_false]
      exact ⟨ip, hmem, by simp [hbad]⟩
    simp [ssrfGuardAllows, hh, hr, hall]
  · rfl
  · rfl
  · simp [navigateStep, hg]

/-- C5 witness: the guard at concrete probe URLs with a failing resolver. -/
theorem ssrfGuard_rejects_witness :
    ssrfGuardAllows dnsAllFailed "ftp://internal.example/" = false ∧
    ssrfGuardAllows dnsAllFailed "http://127.0.0.1/" = false ∧
    ssrfGuardAllows dnsAllFailed "http://169.254.169.254/" = false ∧
    navigateStep dnsAllFailed "http://127.0.0.1/" = (StepStatus.FAILED, none) :=
  ⟨(ssrfGuard_rejects dnsAllFailed "ftp://internal.example/").1 (by decide),
   (ssrfGuard_rejects dnsAllFailed "http://127.0.0.1/").2.2.2.2.1,
   (ssrfGuard_rejects dnsAllFailed "http://169.254.169.254/").2.2.2.2.2.1,
   (ssrfGuard_rejects dnsAllFailed "http://127.0.0.1/").2.2.2.2.2.2
     ((ssrfGuard_rejects dnsAllFailed "http://127.0.0.1/").2.2.2.2.1)⟩

theorem parsePlanSteps_ok_iff (parse : String → Option (DslVerb × String))
    (i : Nat) (instrs : List String) :
    isPlanAccepted (parsePlanSteps parse i instrs) = true ↔
      ∀ s ∈ instrs, (parse s).isSome = true := by
  induction instrs generalizing i with
  | nil => simp [parsePlanSteps, isPlanAccepted]
  | cons s rest ih =>
    unfold parsePlanSteps
    cases hp : parse s with
    | none => simp [isPlanAccepted, hp]
    | some p =>
      have hrest := ih (i + 1)
      cases hr : parsePlanSteps parse (i + 1) rest with
      | ok ps =>
        rw [hr] at hrest
        simp only [isPlanAccepted, true_iff] at hrest
        simp only [hp, hr, isPlanAccepted]
        simp [List.forall_mem_cons, hp]
        exact hrest
      | error e =>
        rw [hr] at hrest
        simp only [isPlanAccepted] at hrest
        have hnot : ¬∀ s' ∈ rest, (parse s').isSome = true := by
          intro hall
          exact absurd (hrest.mpr hall) (by simp)
        simp only [hp, hr, isPlanAccepted]
        constructor
        · intro h
          exact absurd h (by simp)
        · intro h
          exact absurd (fun s' hs' => h s' (List.mem_cons_of_mem _ hs')) hnot

/-- C6 (spec-modelled): the Plan Validator accepts a proposed plan exactly
when it is non-empty, within the configured maximum length, and every
instruction parses as one of the nine DSL verbs. -/
theorem validatePlan_accepts_iff (maxLen : Nat) (instrs : List String) :
    isPlanAccepted (validatePlan maxLen instrs) = true ↔
      (instrs ≠ [] ∧ instrs.length ≤ maxLen ∧
        ∀ s ∈ instrs, (parseInstruction s).isSome = true) := by
  unfold validatePlan
  by_cases he : instrs.isEmpty
  · have : instrs = [] := by simpa [List.isEmpty_iff] using he
    simp [he, isPlanAccepted, this]
  · have hne : instrs ≠ [] := by simpa [List.isEmpty_iff] using he
    by_cases hl : instrs.length > maxLen
    · have : ¬instrs.length ≤ maxLen := by omega
      simp [he, hl, isPlanAccepted, this]
    · have hle : instrs.length ≤ maxLen := by omega
      simp [he, hl, hne, hle, parsePlanSteps_ok_iff]

/-- C7 (spec-modelled): DONE and ERROR are terminal — `execute-next-step` on
such a run is a no-op that dispatches no step, `approve` changes nothing,
and `close-session` is valid from any state and never changes the run
status. -/
theorem terminal_runs_are_inert (exec : Nat → StepOutcome) (r : RunState)
    (h : r.status = RunStatus.DONE ∨ r.status = RunStatus.ERROR) :
    executeNextStep exec r = (r, none) ∧
    approveRun r = r ∧
    (closeSession r).status = r.status ∧
    (∀ r' : RunState, (closeSession r').status = r'.status) := by
  obtain ⟨st, steps, sess⟩ := r
  simp only [RunState.mk.injEq] at h ⊢
  rcases h with h | h <;> subst h <;>
    exact ⟨rfl, by simp [approveRun], rfl, fun r' => rfl⟩

/-- C7 witness: a concrete DONE run is inert. -/
theorem terminal_runs_are_inert_witness :
    executeNextStep (fun _ => StepOutcome.success) ⟨RunStatus.DONE, [], true⟩ =
      (⟨RunStatus.DONE, [], true⟩, none) ∧
    approveRun ⟨RunStatus.DONE, [], true⟩ = ⟨RunStatus.DONE, [], true⟩ ∧
    (closeSession ⟨RunStatus.DONE, [], true⟩).status =
      (⟨RunStatus.DONE, [], true⟩ : RunState).status ∧
    (∀ r' : RunState, (closeSession r').status = r'.status) :=
  terminal_runs_are_inert (fun _ => StepOutcome.success) ⟨RunStatus.DONE, [], true⟩
    (Or.inl rfl)

theorem tryUrlPat_ne_nil {pat s m : List Char} (h : tryUrlPat pat s = some m) :
    m ≠ [] := by
  unfold tryUrlPat at h
  cases hd : dropPatCI pat s with
  | none => rw [hd] at h; cases h
  | some rest =>
    rw [hd] at h
    dsimp only at h
    by_cases he : (rest.takeWhile (fun c => !(isJsSpace c))).isEmpty = true
    · rw [if_pos he] at h; cases h
    · rw [if_neg he] at h
      have hrun : rest.takeWhile (fun c => !(isJsSpace c)) ≠ [] := by
        simpa [List.isEmpty_iff] using he
      injection h with h'
      subst h'
      intro hm
      exact hrun (List.append_eq_nil.mp hm).2

theorem matchUrlAt_ne_nil {s m : List Char} (h : matchUrlAt s = some m) : m ≠ [] := by
  unfold matchUrlAt at h
  cases h1 : tryUrlPat "https://".toList s with
  | some m' =>
    rw [h1] at h
    injection h with h'
    subst h'
    exact tryUrlPat_ne_nil h1
  | none =>
    rw [h1] at h
    exact tryUrlPat_ne_nil h

theorem firstHttpUrlAux_ne_nil {s m : List Char} (h : firstHttpUrlAux s = some m) :
    m ≠ [] := by
  induction s with
  | nil => cases h
  | cons c cs ih =>
    unfold firstHttpUrlAux at h
    cases hm : matchUrlAt (c :: cs) with
    | some m' =>
      rw [hm] at h
      injection h with h'
      subst h'
      exact matchUrlAt_ne_nil hm
    | none =>
      rw [hm] at h
      exact ih h

theorem extractFirstHttpUrl_ne_empty {text u : String}
    (h : extractFirstHttpUrl text = some u) : u ≠ "" := by
  unfold extractFirstHttpUrl at h
  cases hf : firstHttpUrlAux text.toList with
  | none => rw [hf] at h; cases h
  | some cs =>
    rw [hf] at h
    have hcs : cs ≠ [] := firstHttpUrlAux_ne_nil hf
    simp only [Option.map_some'] at h
    injection h with h'
    subst h'
    intro he
    apply hcs
    have hdata : (String.mk cs).data = ("" : String).data := congrArg String.data he
    simpa using hdata

/-- C10: the off-demo-host warning is shown exactly when the task's first
http(s) URL has a (non-empty) host whose lower-cased form differs from the
demo URL's host, and the warning is advisory: any task with non-blank trimmed
text keeps the Create-run button enabled regardless. -/
theorem showUrlWarning_iff_distinct_host (hostFn : String → Option String)
    (task demoUrl t : String) :
    (showUrlWarning (typedHostOf hostFn task) (safeHost hostFn demoUrl) = true ↔
      ∃ u th dh, extractFirstHttpUrl task = some u ∧ safeHost hostFn u = some th ∧
        th ≠ "" ∧ safeHost hostFn demoUrl = some dh ∧ dh ≠ "" ∧ th ≠ dh) ∧
    (0 < t.trim.length → canCreate t false = true) := by
  constructor
  · constructor
    · intro hw
      unfold showUrlWarning at hw
      cases hA : jsStrOptTruthy (typedHostOf hostFn task) with
      | false => rw [hA] at hw; simp at hw
      | true =>
        cases hB : jsStrOptTruthy (safeHost hostFn demoUrl) with
        | false => rw [hB] at hw; simp at hw
        | true =>
          rw [hA, hB] at hw
          simp only [Bool.not_true, Bool.or_self, Bool.false_eq_true, if_false,
            decide_eq_true_eq] at hw
          obtain ⟨th, hx, hthne⟩ : ∃ th, typedHostOf hostFn task = some th ∧ th ≠ "" := by
            cases hx : typedHostOf hostFn task with
            | none => rw [hx] at hA; simp [jsStrOptTruthy] at hA
            | some th =>
              rw [hx] at hA
              simp [jsStrOptTruthy] at hA
              exact ⟨th, rfl, hA⟩
          obtain ⟨dh, hdh, hdhne⟩ : ∃ dh, safeHost hostFn demoUrl = some dh ∧ dh ≠ "" := by
            cases hy : safeHost hostFn demoUrl with
            | none => rw [hy] at hB; simp [jsStrOptTruthy] at hB
            | some dh =>
              rw [hy] at hB
              simp [jsStrOptTruthy] at hB
              exact ⟨dh, rfl, hB⟩
          obtain ⟨u, hu, hsu⟩ :
              ∃ u, extractFirstHttpUrl task = some u ∧ safeHost hostFn u = some th := by
            unfold typedHostOf at hx
            cases he : extractFirstHttpUrl task with
            | none => rw [he] at hx; cases hx
            | some u =>
              rw [he] at hx
              dsimp only at hx
              rw [if_neg (extractFirstHttpUrl_ne_empty he)] at hx
              exact ⟨u, rfl, hx⟩
          refine ⟨u, th, dh, hu, hsu, hthne, hdh, hdhne, fun hcontra => ?_⟩
          apply hw
          rw [hx, hdh, hcontra]
    · rintro ⟨u, th, dh, hu, hsu, hthne, hdh, hdhne, hne⟩
      have hA : typedHostOf hostFn task = some th := by
        unfold typedHostOf
        rw [hu]
        dsimp only
        rw [if_neg (extractFirstHttpUrl_ne_empty hu)]
        exact hsu
      unfold showUrlWarning
      rw [hA, hdh]
      rw [if_neg (by simp [jsStrOptTruthy, hthne, hdhne])]
      simp [hne]
  · intro h
    simp [canCreate, h]

end NovaFlow
